import Mathlib

/-!
Verification of the survivor-pool core (`src/4_simulate.py`).

The embedding below translates the weekly picker (`pick_team`), the season
loop (`simulate_season`) and the multi-season runner (`simulate_all_seasons`)
into Lean.  Numeric cell values from the CSV tables are modelled as
`Option ℚ`: `none` plays the role of a missing value (pandas `NaN`), and the
arithmetic helpers `optMul`/`optAdd` propagate `none` exactly as IEEE `NaN`
propagates through `*` and `+`.  Outcome strings are modelled as lists of
code points (`PyStr`), with `upperChar`/`pyStrip` mirroring the ASCII
fragment of Python's `str.upper`/`str.strip`, and a missing outcome cell
rendered as the string "nan" (what `str(float("nan"))` produces).  The
pandas `Series.idxmax` used for selection skips missing scores, keeps the
first occurrence of the maximum, and fails when every score is missing;
`idxmaxBy` reproduces that behaviour, with the failure surfaced as
`SimErr.allScoresMissing`.  The out-of-bounds `.values[0]` access in the
outcome lookup is surfaced as `SimErr.outcomeNotFound`.
-/

namespace Pick1

/-- Python strings as lists of code points (ASCII fragment). -/
abbrev PyStr := List Nat

/-- ASCII fragment of Python `str.upper` on a single code point. -/
def upperChar (n : Nat) : Nat := if 97 ≤ n ∧ n ≤ 122 then n - 32 else n

/-- Python `str.upper` (ASCII fragment). -/
def pyUpper (s : PyStr) : PyStr := s.map upperChar

/-- The ASCII whitespace code points stripped by Python `str.strip()`. -/
def isSpaceChar (n : Nat) : Bool := decide (n = 32 ∨ n = 9 ∨ n = 10 ∨ n = 11 ∨ n = 12 ∨ n = 13)

/-- Python `str.strip()`: drop whitespace at both ends. -/
def pyStrip (s : PyStr) : PyStr :=
  ((s.dropWhile isSpaceChar).reverse.dropWhile isSpaceChar).reverse

/-- What `str` produces on a missing (`NaN`) cell: the string "nan". -/
def nanStr : PyStr := [110, 97, 110]

/-- `str(outcome)` for a nullable outcome cell. -/
def pyStrOfOpt (o : Option PyStr) : PyStr := o.getD nanStr

/-- The survival vocabulary of `simulate_season`:
`{"W", "WIN", "WON", "TRUE", "T", "1", "YES", "Y"}` as code points. -/
def survivalVocab : List PyStr :=
  [[87], [87, 73, 78], [87, 79, 78], [84, 82, 85, 69], [84], [49], [89, 69, 83], [89]]

/-- `str(outcome).upper().strip() in {...}` from `simulate_season`. -/
def outcomeSurvived (o : Option PyStr) : Bool :=
  survivalVocab.contains (pyStrip (pyUpper (pyStrOfOpt o)))

/-- One row of a weekly table: columns `team`, `win_probability`,
`future_val`, `win`.  `none` models a missing cell. -/
structure Row where
  team : String
  win_probability : Option ℚ
  future_val : Option ℚ
  win : Option PyStr
deriving DecidableEq

/-- A weekly table, in its original row order. -/
abbrev Slate := List Row

/-- A season: the `(week, table)` pairs of the season dict, listed in the
ascending key order produced by `sorted(season.keys())`. -/
abbrev Season := List (Nat × Slate)

/-- `NaN`-propagating multiplication of nullable numbers. -/
def optMul : Option ℚ → Option ℚ → Option ℚ
  | some a, some b => some (a * b)
  | _, _ => none

/-- `NaN`-propagating addition of nullable numbers. -/
def optAdd : Option ℚ → Option ℚ → Option ℚ
  | some a, some b => some (a + b)
  | _, _ => none

/-- The `future_value` accumulation loop of `pick_team`: for each future
week in which the team appears, add the first matching row's
`win_probability` (starting from `0`). -/
def futureExposure (team : String) (future_weeks : List Slate) : Option ℚ :=
  future_weeks.foldl (fun acc fweek =>
    match fweek.find? (fun r => r.team == team) with
    | some r => optAdd acc r.win_probability
    | none => acc) (some 0)

/-- The discount factor `1 / (1 + future_value / 100)` of `pick_team`. -/
def discount (e : ℚ) : ℚ := 1 / (1 + e / 100)

/-- The per-row score of `pick_team`:
`win_probability * future_val * (1 / (1 + future_value / 100))`,
with `none` (missing) propagating like `NaN`. -/
def scoreOf (r : Row) (future_weeks : List Slate) : Option ℚ :=
  optMul (optMul r.win_probability r.future_val)
    ((futureExposure r.team future_weeks).map discount)

/-- Pandas `Series.idxmax` over the score column: scan in row order,
skip missing scores, keep the first occurrence of the maximum.
Returns `none` when no row has a present score. -/
def idxmaxBy (g : Row → Option ℚ) : Option (Row × ℚ) → List Row → Option (Row × ℚ)
  | best, [] => best
  | best, r :: rest =>
    match g r, best with
    | none, _ => idxmaxBy g best rest
    | some s, none => idxmaxBy g (some (r, s)) rest
    | some s, some (br, bs) =>
      if bs < s then idxmaxBy g (some (r, s)) rest else idxmaxBy g (some (br, bs)) rest

/-- The two ways the simulation code can raise: `idxmax` over an all-missing
score column (`ValueError`), and the `.values[0]` outcome lookup finding no
row (`IndexError`). -/
inductive SimErr where
  | allScoresMissing
  | outcomeNotFound
deriving DecidableEq

/-- The filter `week_df[~week_df["team"].isin(used_teams)]`. -/
def eligibleRows (week_df : Slate) (used_teams : List String) : Slate :=
  week_df.filter (fun r => !(used_teams.contains r.team))

/-- `pick_team(week_df, used_teams, future_weeks)`.  `.ok none` is the
`(None, None)` sentinel for an empty eligible set. -/
def pick_team (week_df : Slate) (used_teams : List String) (future_weeks : List Slate) :
    Except SimErr (Option (String × Option ℚ)) :=
  if (eligibleRows week_df used_teams).isEmpty then .ok none
  else
    match idxmaxBy (fun r => scoreOf r future_weeks) none (eligibleRows week_df used_teams) with
    | none => .error .allScoresMissing
    | some (r, _) => .ok (some (r.team, r.win_probability))

/-- One entry of `survival_history`. -/
structure PickRecord where
  week : Nat
  team : String
  win_probability : Option ℚ
  survived : Bool
deriving DecidableEq

/-- How a season run ended (annotation of the terminal condition of the
`simulate_season` loop; the Python function returns only the history). -/
inductive FinalState where
  | survivedAll
  | eliminated
  | stalled (week : Nat)
deriving DecidableEq

/-- The week loop of `simulate_season`: pick, look up the picked team's
outcome in the current table, classify, append, mark the team used, stop on
elimination or on the no-pick sentinel. -/
def simLoop : Season → List String → List PickRecord →
    Except SimErr (List PickRecord × FinalState)
  | [], _, hist => .ok (hist, .survivedAll)
  | (week, df) :: rest, used_teams, hist =>
    match pick_team df used_teams (rest.map Prod.snd) with
    | .error e => .error e
    | .ok none => .ok (hist, .stalled week)
    | .ok (some (team, prob)) =>
      match df.find? (fun r => r.team == team) with
      | none => .error .outcomeNotFound
      | some r =>
        if outcomeSurvived r.win then
          simLoop rest (team :: used_teams) (hist ++ [⟨week, team, prob, true⟩])
        else
          .ok (hist ++ [⟨week, team, prob, false⟩], .eliminated)

/-- `simulate_season`, instrumented with the terminal state. -/
def simulateSeasonFull (season : Season) : Except SimErr (List PickRecord × FinalState) :=
  simLoop season [] []

/-- `simulate_season(season)`: the returned `survival_history`. -/
def simulate_season (season : Season) : Except SimErr (List PickRecord) :=
  (simulateSeasonFull season).map Prod.fst

/-- `simulate_all_seasons`, with the per-year season dicts supplied by a
provider function (`load_season`); an exception in any year aborts the run,
exactly as in the Python loop. -/
def simulate_all_seasons (provider : Nat → Season) : List Nat →
    Except SimErr (List (Nat × List PickRecord))
  | [] => .ok []
  | y :: ys =>
    match simulate_season (provider y) with
    | .error e => .error e
    | .ok h =>
      match simulate_all_seasons provider ys with
      | .error e => .error e
      | .ok rest => .ok ((y, h) :: rest)

/-- The rational value of a present score (`0` as a default for statements;
every use is guarded by presence hypotheses). -/
def scoreQ (r : Row) (future_weeks : List Slate) : ℚ := (scoreOf r future_weeks).getD 0

/-- Spec-side scoring formula, following the spec's words for comparison
with `scoreOf`: `base_score = win_probability * future_val`;
`score = base_score * (1 / (1 + future_exposure / 100))`. -/
def specScore (wp fv exposure : ℚ) : ℚ := (wp * fv) * (1 / (1 + exposure / 100))

/-- Both numeric cells of a row are present. -/
def rowPresent (r : Row) : Prop :=
  r.win_probability.isSome = true ∧ r.future_val.isSome = true

instance (r : Row) : Decidable (rowPresent r) := by
  unfold rowPresent; infer_instance

/-! ### String-normalization lemmas: `upper` and `strip` commute. -/

theorem isSpaceChar_upperChar (n : Nat) : isSpaceChar (upperChar n) = isSpaceChar n := by
  unfold upperChar
  split
  · unfold isSpaceChar
    rw [decide_eq_decide]
    omega
  · rfl

theorem pyStrip_pyUpper (s : PyStr) : pyStrip (pyUpper s) = pyUpper (pyStrip s) := by
  have hcomp : (isSpaceChar ∘ upperChar) = isSpaceChar := funext isSpaceChar_upperChar
  unfold pyStrip pyUpper
  rw [List.dropWhile_map, hcomp, ← List.map_reverse, List.dropWhile_map, hcomp,
    ← List.map_reverse]

/-! ### Properties of the first-maximum scan `idxmaxBy`. -/

theorem idxmaxBy_best_le (g : Row → Option ℚ) (l : List Row) :
    ∀ br bs r s, idxmaxBy g (some (br, bs)) l = some (r, s) → bs ≤ s := by
  induction l with
  | nil =>
    intro br bs r s h
    simp only [idxmaxBy, Option.some.injEq, Prod.mk.injEq] at h
    exact le_of_eq h.2
  | cons y rest ih =>
    intro br bs r s h
    cases hg : g y with
    | none =>
      simp only [idxmaxBy, hg] at h
      exact ih br bs r s h
    | some v =>
      simp only [idxmaxBy, hg] at h
      by_cases hlt : bs < v
      · rw [if_pos hlt] at h
        exact le_of_lt (lt_of_lt_of_le hlt (ih y v r s h))
      · rw [if_neg hlt] at h
        exact ih br bs r s h

theorem idxmaxBy_mem (g : Row → Option ℚ) (l : List Row) :
    ∀ best r s, idxmaxBy g best l = some (r, s) →
      best = some (r, s) ∨ (r ∈ l ∧ g r = some s) := by
  induction l with
  | nil =>
    intro best r s h
    left
    simpa [idxmaxBy] using h
  | cons y rest ih =>
    intro best r s h
    cases hg : g y with
    | none =>
      simp only [idxmaxBy, hg] at h
      rcases ih best r s h with hb | ⟨hm, hgr⟩
      · left; exact hb
      · right; exact ⟨List.mem_cons_of_mem _ hm, hgr⟩
    | some v =>
      cases best with
      | none =>
        simp only [idxmaxBy, hg] at h
        rcases ih (some (y, v)) r s h with hb | ⟨hm, hgr⟩
        · right
          rw [Option.some.injEq, Prod.mk.injEq] at hb
          obtain ⟨h1, h2⟩ := hb
          subst h1; subst h2
          exact ⟨List.mem_cons_self _ _, hg⟩
        · right; exact ⟨List.mem_cons_of_mem _ hm, hgr⟩
      | some b =>
        obtain ⟨br, bs⟩ := b
        simp only [idxmaxBy, hg] at h
        by_cases hlt : bs < v
        · rw [if_pos hlt] at h
          rcases ih (some (y, v)) r s h with hb | ⟨hm, hgr⟩
          · right
            rw [Option.some.injEq, Prod.mk.injEq] at hb
            obtain ⟨h1, h2⟩ := hb
            subst h1; subst h2
            exact ⟨List.mem_cons_self _ _, hg⟩
          · right; exact ⟨List.mem_cons_of_mem _ hm, hgr⟩
        · rw [if_neg hlt] at h
          rcases ih (some (br, bs)) r s h with hb | ⟨hm, hgr⟩
          · left; exact hb
          · right; exact ⟨List.mem_cons_of_mem _ hm, hgr⟩

theorem idxmaxBy_bound (g : Row → Option ℚ) (l : List Row) :
    ∀ best r s, idxmaxBy g best l = some (r, s) →
      ∀ x ∈ l, ∀ v, g x = some v → v ≤ s := by
  induction l with
  | nil =>
    intro best r s _ x hx
    exact absurd hx (List.not_mem_nil x)
  | cons y rest ih =>
    intro best r s h x hx v hv
    cases hg : g y with
    | none =>
      simp only [idxmaxBy, hg] at h
      rcases List.mem_cons.mp hx with hx1 | hx2
      · subst hx1; rw [hg] at hv; exact absurd hv (by simp)
      · exact ih best r s h x hx2 v hv
    | some w =>
      cases best with
      | none =>
        simp only [idxmaxBy, hg] at h
        rcases List.mem_cons.mp hx with hx1 | hx2
        · subst hx1
          rw [hg, Option.some.injEq] at hv
          subst hv
          exact idxmaxBy_best_le g rest x w r s h
        · exact ih (some (y, w)) r s h x hx2 v hv
      | some b =>
        obtain ⟨br, bs⟩ := b
        simp only [idxmaxBy, hg] at h
        by_cases hlt : bs < w
        · rw [if_pos hlt] at h
          rcases List.mem_cons.mp hx with hx1 | hx2
          · subst hx1
            rw [hg, Option.some.injEq] at hv
            subst hv
            exact idxmaxBy_best_le g rest x w r s h
          · exact ih (some (y, w)) r s h x hx2 v hv
        · rw [if_neg hlt] at h
          rcases List.mem_cons.mp hx with hx1 | hx2
          · subst hx1
            rw [hg, Option.some.injEq] at hv
            subst hv
            exact le_trans (le_of_not_lt hlt) (idxmaxBy_best_le g rest br bs r s h)
          · exact ih (some (br, bs)) r s h x hx2 v hv

theorem idxmaxBy_isSome (g : Row → Option ℚ) (l : List Row) :
    ∀ best, (best.isSome = true ∨ ∃ x ∈ l, (g x).isSome = true) →
      (idxmaxBy g best l).isSome = true := by
  induction l with
  | nil =>
    intro best hb
    rcases hb with hb | ⟨x, hx, _⟩
    · simpa [idxmaxBy] using hb
    · exact absurd hx (List.not_mem_nil x)
  | cons y rest ih =>
    intro best hb
    cases hg : g y with
    | none =>
      simp only [idxmaxBy, hg]
      apply ih best
      rcases hb with hb | ⟨x, hx, hxs⟩
      · left; exact hb
      · rcases List.mem_cons.mp hx with hx1 | hx2
        · subst hx1; rw [hg] at hxs; exact absurd hxs (by simp)
        · right; exact ⟨x, hx2, hxs⟩
    | some w =>
      cases best with
      | none =>
        simp only [idxmaxBy, hg]
        exact ih _ (Or.inl rfl)
      | some b =>
        obtain ⟨br, bs⟩ := b
        simp only [idxmaxBy, hg]
        by_cases hlt : bs < w
        · rw [if_pos hlt]
          exact ih _ (Or.inl rfl)
        · rw [if_neg hlt]
          exact ih _ (Or.inl rfl)

theorem idxmaxBy_first (g : Row → Option ℚ) (l : List Row) :
    ∀ best r s, idxmaxBy g best l = some (r, s) →
      best = some (r, s) ∨
      ∃ l1 l2, l = l1 ++ r :: l2 ∧ g r = some s ∧
        (∀ br bs, best = some (br, bs) → bs < s) ∧
        ∀ x ∈ l1, ∀ v, g x = some v → v < s := by
  induction l with
  | nil =>
    intro best r s h
    left
    simpa [idxmaxBy] using h
  | cons y rest ih =>
    intro best r s h
    cases hg : g y with
    | none =>
      simp only [idxmaxBy, hg] at h
      rcases ih best r s h with hb | ⟨l1, l2, heq, hgr, hbest, hearlier⟩
      · left; exact hb
      · right
        refine ⟨y :: l1, l2, by rw [heq, List.cons_append], hgr, hbest, ?_⟩
        intro x hx v hv
        rcases List.mem_cons.mp hx with hx1 | hx2
        · subst hx1; rw [hg] at hv; exact absurd hv (by simp)
        · exact hearlier x hx2 v hv
    | some w =>
      cases best with
      | none =>
        simp only [idxmaxBy, hg] at h
        rcases ih (some (y, w)) r s h with hb | ⟨l1, l2, heq, hgr, hbest, hearlier⟩
        · right
          rw [Option.some.injEq, Prod.mk.injEq] at hb
          obtain ⟨h1, h2⟩ := hb
          subst h1; subst h2
          refine ⟨[], rest, rfl, hg, ?_, fun x hx => absurd hx (List.not_mem_nil x)⟩
          intro br bs hcon
          cases hcon
        · right
          refine ⟨y :: l1, l2, by rw [heq, List.cons_append], hgr, ?_, ?_⟩
          · intro br bs hcon
            cases hcon
          · intro x hx v hv
            rcases List.mem_cons.mp hx with hx1 | hx2
            · subst hx1
              rw [hg, Option.some.injEq] at hv
              subst hv
              exact hbest x w rfl
            · exact hearlier x hx2 v hv
      | some b =>
        obtain ⟨br, bs⟩ := b
        simp only [idxmaxBy, hg] at h
        by_cases hlt : bs < w
        · rw [if_pos hlt] at h
          rcases ih (some (y, w)) r s h with hb | ⟨l1, l2, heq, hgr, hbest, hearlier⟩
          · right
            rw [Option.some.injEq, Prod.mk.injEq] at hb
            obtain ⟨h1, h2⟩ := hb
            subst h1; subst h2
            refine ⟨[], rest, rfl, hg, ?_, fun x hx => absurd hx (List.not_mem_nil x)⟩
            intro br2 bs2 hcon
            rw [Option.some.injEq, Prod.mk.injEq] at hcon
            rw [← hcon.2]
            exact hlt
          · right
            have hws : w < s := hbest y w rfl
            refine ⟨y :: l1, l2, by rw [heq, List.cons_append], hgr, ?_, ?_⟩
            · intro br2 bs2 hcon
              rw [Option.some.injEq, Prod.mk.injEq] at hcon
              rw [← hcon.2]
              exact lt_trans hlt hws
            · intro x hx v hv
              rcases List.mem_cons.mp hx with hx1 | hx2
              · subst hx1
                rw [hg, Option.some.injEq] at hv
                subst hv
                exact hws
              · exact hearlier x hx2 v hv
        · rw [if_neg hlt] at h
          rcases ih (some (br, bs)) r s h with hb | ⟨l1, l2, heq, hgr, hbest, hearlier⟩
          · left; exact hb
          · right
            have hbs : bs < s := hbest br bs rfl
            refine ⟨y :: l1, l2, by rw [heq, List.cons_append], hgr, ?_, ?_⟩
            · intro br2 bs2 hcon
              rw [Option.some.injEq, Prod.mk.injEq] at hcon
              rw [← hcon.2]
              exact hbs
            · intro x hx v hv
              rcases List.mem_cons.mp hx with hx1 | hx2
              · subst hx1
                rw [hg, Option.some.injEq] at hv
                subst hv
                exact lt_of_le_of_lt (le_of_not_lt hlt) hbs
              · exact hearlier x hx2 v hv

/-! ### Properties of `pick_team`. -/

theorem pick_team_of_empty (week_df : Slate) (used_teams : List String)
    (future_weeks : List Slate) (h : eligibleRows week_df used_teams = []) :
    pick_team week_df used_teams future_weeks = .ok none := by
  unfold pick_team
  rw [h]
  rfl

theorem pick_team_mem (week_df : Slate) (used_teams : List String)
    (future_weeks : List Slate) (t : String) (p : Option ℚ)
    (h : pick_team week_df used_teams future_weeks = .ok (some (t, p))) :
    ∃ r, r ∈ eligibleRows week_df used_teams ∧ r.team = t ∧ r.win_probability = p ∧
      ∃ s, scoreOf r future_weeks = some s := by
  unfold pick_team at h
  by_cases he : (eligibleRows week_df used_teams).isEmpty
  · rw [if_pos he] at h
    simp at h
  · rw [if_neg he] at h
    cases hidx : idxmaxBy (fun r => scoreOf r future_weeks) none
        (eligibleRows week_df used_teams) with
    | none =>
      rw [hidx] at h
      simp at h
    | some pr =>
      obtain ⟨r, s⟩ := pr
      rw [hidx] at h
      simp only [Except.ok.injEq, Option.some.injEq, Prod.mk.injEq] at h
      obtain ⟨ht, hp⟩ := h
      rcases idxmaxBy_mem _ _ none r s hidx with hb | ⟨hm, hgs⟩
      · cases hb
      · exact ⟨r, hm, ht, hp, s, hgs⟩

theorem pick_team_fresh (week_df : Slate) (used_teams : List String)
    (future_weeks : List Slate) (t : String) (p : Option ℚ)
    (h : pick_team week_df used_teams future_weeks = .ok (some (t, p))) :
    ∃ r, r ∈ week_df ∧ r.team = t ∧ r.win_probability = p ∧
      used_teams.contains t = false := by
  obtain ⟨r, hm, ht, hp, _⟩ := pick_team_mem week_df used_teams future_weeks t p h
  have hf := List.mem_filter.mp hm
  refine ⟨r, hf.1, ht, hp, ?_⟩
  rw [← ht]
  have := hf.2
  simpa using this

theorem pick_team_no_lookup_error (week_df : Slate) (used_teams : List String)
    (future_weeks : List Slate) :
    pick_team week_df used_teams future_weeks ≠ .error .outcomeNotFound := by
  unfold pick_team
  by_cases he : (eligibleRows week_df used_teams).isEmpty
  · rw [if_pos he]
    simp
  · rw [if_neg he]
    cases hidx : idxmaxBy (fun r => scoreOf r future_weeks) none
        (eligibleRows week_df used_teams) with
    | none => simp
    | some pr =>
      obtain ⟨r, s⟩ := pr
      simp

/-! ### Presence lemmas: fully-present data yields present scores. -/

theorem futureExposure_foldl_isSome (future_weeks : List Slate) :
    ∀ (team : String) (acc : Option ℚ), acc.isSome = true →
    (∀ fw ∈ future_weeks, ∀ r ∈ fw, r.win_probability.isSome = true) →
    (future_weeks.foldl (fun acc fweek =>
      match fweek.find? (fun r => r.team == team) with
      | some r => optAdd acc r.win_probability
      | none => acc) acc).isSome = true := by
  induction future_weeks with
  | nil =>
    intro team acc hacc _
    simpa using hacc
  | cons fw rest ih =>
    intro team acc hacc hf
    simp only [List.foldl_cons]
    cases hfind : fw.find? (fun r => r.team == team) with
    | none =>
      exact ih team acc hacc (fun fw2 h2 => hf fw2 (List.mem_cons_of_mem _ h2))
    | some r =>
      refine ih team _ ?_ (fun fw2 h2 => hf fw2 (List.mem_cons_of_mem _ h2))
      show (optAdd acc r.win_probability).isSome = true
      have hr : r ∈ fw := List.mem_of_find?_eq_some hfind
      obtain ⟨a, ha⟩ := Option.isSome_iff_exists.mp hacc
      obtain ⟨w, hw⟩ := Option.isSome_iff_exists.mp (hf fw (List.mem_cons_self _ _) r hr)
      rw [ha, hw]
      rfl

theorem futureExposure_isSome (team : String) (future_weeks : List Slate)
    (hf : ∀ fw ∈ future_weeks, ∀ r ∈ fw, r.win_probability.isSome = true) :
    ∃ e, futureExposure team future_weeks = some e := by
  apply Option.isSome_iff_exists.mp
  unfold futureExposure
  exact futureExposure_foldl_isSome future_weeks team (some 0) rfl hf

theorem scoreOf_present (r : Row) (future_weeks : List Slate)
    (h1 : rowPresent r)
    (hf : ∀ fw ∈ future_weeks, ∀ x ∈ fw, x.win_probability.isSome = true) :
    scoreOf r future_weeks =
      some (specScore (r.win_probability.getD 0) (r.future_val.getD 0)
        ((futureExposure r.team future_weeks).getD 0)) := by
  obtain ⟨w, hw⟩ := Option.isSome_iff_exists.mp h1.1
  obtain ⟨f, hfv⟩ := Option.isSome_iff_exists.mp h1.2
  obtain ⟨e, he⟩ := futureExposure_isSome r.team future_weeks hf
  simp only [scoreOf, specScore, hw, hfv, he]
  simp [optMul, discount]

theorem eligible_scoreOf_isSome (week_df : Slate) (used_teams : List String)
    (future_weeks : List Slate)
    (hp : ∀ r ∈ week_df, rowPresent r)
    (hf : ∀ fw ∈ future_weeks, ∀ x ∈ fw, x.win_probability.isSome = true) :
    ∀ r ∈ eligibleRows week_df used_teams, (scoreOf r future_weeks).isSome = true := by
  intro r hr
  have hm : r ∈ week_df := (List.mem_filter.mp hr).1
  rw [scoreOf_present r future_weeks (hp r hm) hf]
  rfl

theorem pick_team_argmax (week_df : Slate) (used_teams : List String)
    (future_weeks : List Slate)
    (hsome : ∃ x ∈ eligibleRows week_df used_teams, (scoreOf x future_weeks).isSome = true) :
    ∃ r s, scoreOf r future_weeks = some s ∧
      pick_team week_df used_teams future_weeks = .ok (some (r.team, r.win_probability)) ∧
      (∃ l1 l2, eligibleRows week_df used_teams = l1 ++ r :: l2 ∧
        ∀ x ∈ l1, ∀ v, scoreOf x future_weeks = some v → v < s) ∧
      (∀ x ∈ eligibleRows week_df used_teams, ∀ v, scoreOf x future_weeks = some v → v ≤ s) := by
  have hne : (eligibleRows week_df used_teams).isEmpty = false := by
    obtain ⟨x, hx, _⟩ := hsome
    cases hl : eligibleRows week_df used_teams with
    | nil => rw [hl] at hx; exact absurd hx (List.not_mem_nil x)
    | cons a as => rfl
  have hs : (idxmaxBy (fun r => scoreOf r future_weeks) none
      (eligibleRows week_df used_teams)).isSome = true :=
    idxmaxBy_isSome _ _ none (Or.inr hsome)
  obtain ⟨pr, hidx⟩ := Option.isSome_iff_exists.mp hs
  obtain ⟨r, s⟩ := pr
  have hpick : pick_team week_df used_teams future_weeks =
      .ok (some (r.team, r.win_probability)) := by
    unfold pick_team
    rw [hne]
    simp only [Bool.false_eq_true, if_false]
    rw [hidx]
  have hscore : scoreOf r future_weeks = some s := by
    rcases idxmaxBy_mem _ _ none r s hidx with hb | ⟨_, hgs⟩
    · cases hb
    · exact hgs
  refine ⟨r, s, hscore, hpick, ?_, ?_⟩
  · rcases idxmaxBy_first _ _ none r s hidx with hb | ⟨l1, l2, heq, _, _, hearlier⟩
    · cases hb
    · exact ⟨l1, l2, heq, hearlier⟩
  · exact idxmaxBy_bound _ _ none r s hidx

/-! ### Invariants of the `simulate_season` loop. -/

theorem find?_isSome_of_pick (df : Slate) (used_teams : List String)
    (future_weeks : List Slate) (team : String) (prob : Option ℚ)
    (hpick : pick_team df used_teams future_weeks = .ok (some (team, prob))) :
    (df.find? (fun r => r.team == team)).isSome = true := by
  obtain ⟨r0, hm0, ht0, _, _⟩ := pick_team_fresh df used_teams future_weeks team prob hpick
  rw [List.find?_isSome]
  exact ⟨r0, hm0, by simp [ht0]⟩

theorem simLoop_no_lookup_error : ∀ (season : Season) (used_teams : List String)
    (hist : List PickRecord),
    simLoop season used_teams hist ≠ .error .outcomeNotFound := by
  intro season
  induction season with
  | nil =>
    intro used hist h
    simp [simLoop] at h
  | cons wk rest ih =>
    intro used hist h
    obtain ⟨week, df⟩ := wk
    cases hpick : pick_team df used (rest.map Prod.snd) with
    | error e =>
      simp only [simLoop, hpick] at h
      have he : e = SimErr.outcomeNotFound := by simpa using h
      exact pick_team_no_lookup_error df used (rest.map Prod.snd) (by rw [hpick, he])
    | ok o =>
      cases o with
      | none =>
        simp [simLoop, hpick] at h
      | some pr =>
        obtain ⟨team, prob⟩ := pr
        cases hfind : df.find? (fun r => r.team == team) with
        | none =>
          have hsome := find?_isSome_of_pick df used (rest.map Prod.snd) team prob hpick
          rw [hfind] at hsome
          simp at hsome
        | some r =>
          cases hsurv : outcomeSurvived r.win with
          | true =>
            simp [simLoop, hpick, hfind, hsurv] at h
            exact ih _ _ h
          | false =>
            simp [simLoop, hpick, hfind, hsurv] at h

theorem simLoop_nodup : ∀ (season : Season) (used_teams : List String)
    (hist : List PickRecord) (h : List PickRecord) (st : FinalState),
    simLoop season used_teams hist = .ok (h, st) →
    (∀ t ∈ hist.map PickRecord.team, t ∈ used_teams) →
    (hist.map PickRecord.team).Nodup →
    (h.map PickRecord.team).Nodup := by
  intro season
  induction season with
  | nil =>
    intro used hist h st hrun hsub hnd
    simp [simLoop] at hrun
    rw [← hrun.1]
    exact hnd
  | cons wk rest ih =>
    intro used hist h st hrun hsub hnd
    obtain ⟨week, df⟩ := wk
    cases hpick : pick_team df used (rest.map Prod.snd) with
    | error e =>
      simp [simLoop, hpick] at hrun
    | ok o =>
      cases o with
      | none =>
        simp [simLoop, hpick] at hrun
        rw [← hrun.1]
        exact hnd
      | some pr =>
        obtain ⟨team, prob⟩ := pr
        obtain ⟨r0, hm0, ht0, hp0, hused0⟩ :=
          pick_team_fresh df used (rest.map Prod.snd) team prob hpick
        have hnotin : team ∉ used := by
          intro hmem
          have h2 : used.contains team = true := List.elem_iff.mpr hmem
          rw [hused0] at h2
          exact Bool.false_ne_true h2
        have hteam_not_hist : team ∉ hist.map PickRecord.team := by
          intro hmem
          exact hnotin (hsub team hmem)
        cases hfind : df.find? (fun r => r.team == team) with
        | none =>
          have hsome := find?_isSome_of_pick df used (rest.map Prod.snd) team prob hpick
          rw [hfind] at hsome
          simp at hsome
        | some r =>
          cases hsurv : outcomeSurvived r.win with
          | true =>
            simp only [simLoop, hpick, hfind, hsurv, if_true] at hrun
            apply ih _ _ h st hrun
            · intro t hmem
              rw [List.map_append] at hmem
              rcases List.mem_append.mp hmem with h1 | h2
              · exact List.mem_cons_of_mem _ (hsub t h1)
              · have ht : t = team := by simpa using h2
                rw [ht]
                exact List.mem_cons_self _ _
            · rw [List.map_append, List.nodup_append]
              refine ⟨hnd, by simp, ?_⟩
              intro a ha hb
              have ht : a = team := by simpa using hb
              rw [ht] at ha
              exact hteam_not_hist ha
          | false =>
            simp [simLoop, hpick, hfind, hsurv] at hrun
            rw [← hrun.1]
            rw [List.map_append, List.nodup_append]
            refine ⟨hnd, by simp, ?_⟩
            intro a ha hb
            have ht : a = team := by simpa using hb
            rw [ht] at ha
            exact hteam_not_hist ha

theorem simLoop_len_lastFail : ∀ (season : Season) (used_teams : List String)
    (hist : List PickRecord) (h : List PickRecord) (st : FinalState),
    simLoop season used_teams hist = .ok (h, st) →
    (∀ r ∈ hist, r.survived = true) →
    h.length ≤ hist.length + season.length ∧ ∀ r ∈ h.dropLast, r.survived = true := by
  intro season
  induction season with
  | nil =>
    intro used hist h st hrun hall
    simp [simLoop] at hrun
    rw [← hrun.1]
    exact ⟨by simp, fun r hr => hall r (List.mem_of_mem_dropLast hr)⟩
  | cons wk rest ih =>
    intro used hist h st hrun hall
    obtain ⟨week, df⟩ := wk
    cases hpick : pick_team df used (rest.map Prod.snd) with
    | error e =>
      simp [simLoop, hpick] at hrun
    | ok o =>
      cases o with
      | none =>
        simp [simLoop, hpick] at hrun
        rw [← hrun.1]
        refine ⟨?_, fun r hr => hall r (List.mem_of_mem_dropLast hr)⟩
        simp only [List.length_cons]
        omega
      | some pr =>
        obtain ⟨team, prob⟩ := pr
        cases hfind : df.find? (fun r => r.team == team) with
        | none =>
          have hsome := find?_isSome_of_pick df used (rest.map Prod.snd) team prob hpick
          rw [hfind] at hsome
          simp at hsome
        | some r =>
          cases hsurv : outcomeSurvived r.win with
          | true =>
            simp only [simLoop, hpick, hfind, hsurv, if_true] at hrun
            have hall2 : ∀ x ∈ hist ++ [(⟨week, team, prob, true⟩ : PickRecord)],
                x.survived = true := by
              intro x hx
              rcases List.mem_append.mp hx with h1 | h2
              · exact hall x h1
              · rw [List.mem_singleton.mp h2]
            obtain ⟨hlen, hlast⟩ := ih _ _ h st hrun hall2
            refine ⟨?_, hlast⟩
            simp only [List.length_append, List.length_singleton] at hlen
            simp only [List.length_cons]
            omega
          | false =>
            simp [simLoop, hpick, hfind, hsurv] at hrun
            rw [← hrun.1]
            constructor
            · simp only [List.length_append, List.length_singleton, List.length_cons,
                List.length_nil]
              omega
            · intro x hx
              rw [List.dropLast_concat] at hx
              exact hall x hx

theorem simLoop_stalled_split : ∀ (season : Season) (used_teams : List String)
    (hist : List PickRecord) (h : List PickRecord) (W : Nat),
    simLoop season used_teams hist = .ok (h, .stalled W) →
    ∃ pre wdf post, season = pre ++ (W, wdf) :: post ∧
      h.length = hist.length + pre.length := by
  intro season
  induction season with
  | nil =>
    intro used hist h W hrun
    simp [simLoop] at hrun
  | cons wk rest ih =>
    intro used hist h W hrun
    obtain ⟨week, df⟩ := wk
    cases hpick : pick_team df used (rest.map Prod.snd) with
    | error e =>
      simp [simLoop, hpick] at hrun
    | ok o =>
      cases o with
      | none =>
        simp [simLoop, hpick] at hrun
        obtain ⟨h1, h2⟩ := hrun
        refine ⟨[], df, rest, ?_, by rw [← h1]; simp⟩
        rw [List.nil_append]
        rw [show week = W from by
          cases h2
          rfl]
      | some pr =>
        obtain ⟨team, prob⟩ := pr
        cases hfind : df.find? (fun r => r.team == team) with
        | none =>
          have hsome := find?_isSome_of_pick df used (rest.map Prod.snd) team prob hpick
          rw [hfind] at hsome
          simp at hsome
        | some r =>
          cases hsurv : outcomeSurvived r.win with
          | true =>
            simp only [simLoop, hpick, hfind, hsurv, if_true] at hrun
            obtain ⟨pre, wdf, post, heq, hlen⟩ := ih _ _ h W hrun
            refine ⟨(week, df) :: pre, wdf, post, by rw [heq, List.cons_append], ?_⟩
            simp only [List.length_append, List.length_singleton] at hlen
            simp only [List.length_cons]
            omega
          | false =>
            simp [simLoop, hpick, hfind, hsurv] at hrun

theorem simulate_season_ok (season : Season) (h : List PickRecord)
    (hsim : simulate_season season = .ok h) :
    ∃ st, simLoop season [] [] = .ok (h, st) := by
  unfold simulate_season simulateSeasonFull at hsim
  cases hrun : simLoop season [] [] with
  | error e =>
    rw [hrun] at hsim
    simp [Except.map] at hsim
  | ok pr =>
    obtain ⟨h2, st⟩ := pr
    rw [hrun] at hsim
    have h2h : h2 = h := by simpa [Except.map] using hsim
    exact ⟨st, by rw [h2h]⟩

/-! ### Properties of the multi-season runner. -/

theorem simulate_all_seasons_cons_empty (provider : Nat → Season) (y0 : Nat)
    (ys : List Nat) (hp : provider y0 = []) :
    simulate_all_seasons provider (y0 :: ys) =
      (simulate_all_seasons provider ys).map (fun rb => (y0, []) :: rb) := by
  have h0 : simulate_season (provider y0) = .ok [] := by rw [hp]; rfl
  simp only [simulate_all_seasons, h0]
  cases hys : simulate_all_seasons provider ys with
  | error e => rfl
  | ok rest => rfl

theorem simulate_all_seasons_append_ok (provider : Nat → Season) :
    ∀ (a : List Nat) (ra : List (Nat × List PickRecord)) (b : List Nat),
    simulate_all_seasons provider a = .ok ra →
    simulate_all_seasons provider (a ++ b) =
      (simulate_all_seasons provider b).map (fun rb => ra ++ rb) := by
  intro a
  induction a with
  | nil =>
    intro ra b ha
    have hra : ra = [] := by
      have := ha.symm
      simpa [simulate_all_seasons] using this
    rw [hra, List.nil_append]
    cases hb : simulate_all_seasons provider b with
    | error e => rfl
    | ok rb => simp [Except.map]
  | cons y ys ih =>
    intro ra b ha
    simp only [simulate_all_seasons, List.cons_append] at ha ⊢
    cases hy : simulate_season (provider y) with
    | error e =>
      simp only [hy] at ha
      exact Except.noConfusion ha
    | ok h =>
      simp only [hy] at ha ⊢
      cases hys : simulate_all_seasons provider ys with
      | error e =>
        simp only [hys] at ha
        exact Except.noConfusion ha
      | ok ra2 =>
        simp only [hys] at ha
        have hra : ra = (y, h) :: ra2 := by simpa using ha.symm
        simp only [List.append_eq]
        rw [ih ra2 b hys, hra]
        cases hb : simulate_all_seasons provider b with
        | error e => rfl
        | ok rb => rfl

/-! ### The claims. -/

/-- C1: for every eligible team row of the current slate (numeric fields
present), `pick_team` computes the score
`(win_probability * future_val) * (1 / (1 + future_exposure / 100))`,
where `future_exposure` sums the team's `win_probability` over the strictly
later slates in which the team appears (`0` if it never appears again), and
returns a team attaining the maximum such score together with that team's
`win_probability` at pick time. -/
theorem claim_C1 (week_df : Slate) (used_teams : List String) (future_weeks : List Slate)
    (hne : eligibleRows week_df used_teams ≠ [])
    (hp : ∀ r ∈ week_df, rowPresent r)
    (hf : ∀ fw ∈ future_weeks, ∀ x ∈ fw, x.win_probability.isSome = true) :
    ∃ r ∈ eligibleRows week_df used_teams,
      pick_team week_df used_teams future_weeks = .ok (some (r.team, r.win_probability)) ∧
      (∀ x ∈ eligibleRows week_df used_teams,
        scoreOf x future_weeks = some (specScore (x.win_probability.getD 0)
          (x.future_val.getD 0) ((futureExposure x.team future_weeks).getD 0))) ∧
      ∀ x ∈ eligibleRows week_df used_teams,
        scoreQ x future_weeks ≤ scoreQ r future_weeks := by
  have hsome : ∃ x ∈ eligibleRows week_df used_teams,
      (scoreOf x future_weeks).isSome = true := by
    cases hl : eligibleRows week_df used_teams with
    | nil => exact absurd hl hne
    | cons a as =>
      refine ⟨a, List.mem_cons_self _ _, ?_⟩
      apply eligible_scoreOf_isSome week_df used_teams future_weeks hp hf
      rw [hl]
      exact List.mem_cons_self _ _
  obtain ⟨r, s, hscore, hpick, ⟨l1, l2, heq, _⟩, hbound⟩ :=
    pick_team_argmax week_df used_teams future_weeks hsome
  have hrmem : r ∈ eligibleRows week_df used_teams := by
    rw [heq]
    exact List.mem_append_right _ (List.mem_cons_self _ _)
  refine ⟨r, hrmem, hpick, ?_, ?_⟩
  · intro x hx
    exact scoreOf_present x future_weeks (hp x (List.mem_filter.mp hx).1) hf
  · intro x hx
    obtain ⟨v, hv⟩ := Option.isSome_iff_exists.mp
      (eligible_scoreOf_isSome week_df used_teams future_weeks hp hf x hx)
    have hvs := hbound x hx v hv
    unfold scoreQ
    rw [hv, hscore]
    simpa using hvs

/-- C1 witness: the spec's end-to-end scenario.  Week 1 has A (70, 1.0) and
B (90, 1.0); B reappears in week 2 at 95, A does not.  A's score is 70,
B's is discounted to 90/1.95, so the returned maximum is A at 70. -/
theorem claim_C1_witness :
    ∃ r ∈ eligibleRows [⟨"A", some 70, some 1, some [87]⟩,
        ⟨"B", some 90, some 1, some [76]⟩] [],
      pick_team [⟨"A", some 70, some 1, some [87]⟩, ⟨"B", some 90, some 1, some [76]⟩]
          [] [[⟨"B", some 95, some 1, some [87]⟩]] = .ok (some (r.team, r.win_probability)) ∧
      (∀ x ∈ eligibleRows [⟨"A", some 70, some 1, some [87]⟩,
          ⟨"B", some 90, some 1, some [76]⟩] [],
        scoreOf x [[⟨"B", some 95, some 1, some [87]⟩]] =
          some (specScore (x.win_probability.getD 0) (x.future_val.getD 0)
            ((futureExposure x.team [[⟨"B", some 95, some 1, some [87]⟩]]).getD 0))) ∧
      ∀ x ∈ eligibleRows [⟨"A", some 70, some 1, some [87]⟩,
          ⟨"B", some 90, some 1, some [76]⟩] [],
        scoreQ x [[⟨"B", some 95, some 1, some [87]⟩]] ≤
          scoreQ r [[⟨"B", some 95, some 1, some [87]⟩]] :=
  claim_C1 [⟨"A", some 70, some 1, some [87]⟩, ⟨"B", some 90, some 1, some [76]⟩]
    [] [[⟨"B", some 95, some 1, some [87]⟩]] (by decide) (by decide) (by decide)

/-- C2 counterexample: a slate whose only (eligible) row has a missing
`win_probability`.  The eligible set is non-empty, yet the picker does not
treat the missing value as `0` and return a pick: the missing value
propagates into the score and the `idxmax` over an all-missing score column
raises, as pandas does. -/
theorem claim_C2_counterexample :
    eligibleRows [⟨"A", none, some 1, none⟩] [] ≠ [] ∧
    pick_team [⟨"A", none, some 1, none⟩] [] [] = .error .allScoresMissing := by
  constructor
  · decide
  · rfl

/-- C2 (amended): a missing `win_probability` or `future_val` makes the
affected row's score missing (`NaN`); the picker skips missing-score rows
in the argmax and still returns a deterministic pick whenever at least one
eligible row has a fully present score; when every eligible row's score is
missing, the picker raises an error instead of returning a pick. -/
theorem claim_C2 (week_df : Slate) (used_teams : List String) (future_weeks : List Slate)
    (hsome : ∃ x ∈ eligibleRows week_df used_teams, (scoreOf x future_weeks).isSome = true) :
    ∃ t p, pick_team week_df used_teams future_weeks = .ok (some (t, p)) ∧
      ∃ r ∈ eligibleRows week_df used_teams, r.team = t ∧ r.win_probability = p := by
  obtain ⟨r, s, _, hpick, ⟨l1, l2, heq, _⟩, _⟩ :=
    pick_team_argmax week_df used_teams future_weeks hsome
  refine ⟨r.team, r.win_probability, hpick, r, ?_, rfl, rfl⟩
  rw [heq]
  exact List.mem_append_right _ (List.mem_cons_self _ _)

/-- C2 witness: with row A's `win_probability` missing and row B fully
present, the picker skips A and deterministically picks B. -/
theorem claim_C2_witness :
    ∃ t p, pick_team [⟨"A", none, some 1, none⟩, ⟨"B", some 50, some 1, none⟩] [] [] =
        .ok (some (t, p)) ∧
      ∃ r ∈ eligibleRows [⟨"A", none, some 1, none⟩, ⟨"B", some 50, some 1, none⟩] [],
        r.team = t ∧ r.win_probability = p :=
  claim_C2 [⟨"A", none, some 1, none⟩, ⟨"B", some 50, some 1, none⟩] [] [] (by decide)

/-- C3: when several eligible teams share the maximum score, `pick_team`
returns the one that appears first in the slate's original row order
(stable argmax): the returned row splits the eligible rows so that every
strictly earlier eligible row has a strictly smaller score.  Determinism
across repeated runs is immediate since `pick_team` is a function of its
arguments. -/
theorem claim_C3 (week_df : Slate) (used_teams : List String) (future_weeks : List Slate)
    (hne : eligibleRows week_df used_teams ≠ [])
    (hp : ∀ r ∈ week_df, rowPresent r)
    (hf : ∀ fw ∈ future_weeks, ∀ x ∈ fw, x.win_probability.isSome = true) :
    ∃ r l1 l2, eligibleRows week_df used_teams = l1 ++ r :: l2 ∧
      pick_team week_df used_teams future_weeks = .ok (some (r.team, r.win_probability)) ∧
      ∀ x ∈ l1, scoreQ x future_weeks < scoreQ r future_weeks := by
  have hsome : ∃ x ∈ eligibleRows week_df used_teams,
      (scoreOf x future_weeks).isSome = true := by
    cases hl : eligibleRows week_df used_teams with
    | nil => exact absurd hl hne
    | cons a as =>
      refine ⟨a, List.mem_cons_self _ _, ?_⟩
      apply eligible_scoreOf_isSome week_df used_teams future_weeks hp hf
      rw [hl]
      exact List.mem_cons_self _ _
  obtain ⟨r, s, hscore, hpick, ⟨l1, l2, heq, hearlier⟩, _⟩ :=
    pick_team_argmax week_df used_teams future_weeks hsome
  refine ⟨r, l1, l2, heq, hpick, ?_⟩
  intro x hx
  have hxmem : x ∈ eligibleRows week_df used_teams := by
    rw [heq]
    exact List.mem_append_left _ hx
  obtain ⟨v, hv⟩ := Option.isSome_iff_exists.mp
    (eligible_scoreOf_isSome week_df used_teams future_weeks hp hf x hxmem)
  have hvs := hearlier x hx v hv
  unfold scoreQ
  rw [hv, hscore]
  simpa using hvs

/-- C3 witness: X and Y tie at score 50; the picker returns X, the earlier
row, with the split placing no eligible row before it. -/
theorem claim_C3_witness :
    ∃ r l1 l2, eligibleRows [⟨"X", some 50, some 1, none⟩, ⟨"Y", some 50, some 1, none⟩] [] =
        l1 ++ r :: l2 ∧
      pick_team [⟨"X", some 50, some 1, none⟩, ⟨"Y", some 50, some 1, none⟩] [] [] =
        .ok (some (r.team, r.win_probability)) ∧
      ∀ x ∈ l1, scoreQ x [] < scoreQ r [] :=
  claim_C3 [⟨"X", some 50, some 1, none⟩, ⟨"Y", some 50, some 1, none⟩] [] []
    (by decide) (by decide) (by decide)

/-- C4: a pick's outcome is classified as survived exactly when the
outcome text, after whitespace trimming and case normalization, is one of
`W`, `WIN`, `WON`, `TRUE`, `T`, `1`, `YES`, `Y`; any other value — in
particular a missing outcome, rendered as the text `nan` — is classified
as elimination; the classification is a total Boolean function, never an
error and never an unknown/pending state. -/
theorem claim_C4 :
    (∀ o : Option PyStr,
      outcomeSurvived o = true ↔ pyUpper (pyStrip (pyStrOfOpt o)) ∈ survivalVocab) ∧
    outcomeSurvived none = false := by
  constructor
  · intro o
    unfold outcomeSurvived
    rw [pyStrip_pyUpper]
    exact List.elem_iff
  · rfl

/-- C5: `pick_team` never returns a team that is already in `used_teams`,
and consequently no team identifier appears in two records of a
`simulate_season` history. -/
theorem claim_C5 :
    (∀ (week_df : Slate) (used_teams : List String) (future_weeks : List Slate)
      (t : String) (p : Option ℚ),
      pick_team week_df used_teams future_weeks = .ok (some (t, p)) →
      used_teams.contains t = false) ∧
    ∀ (season : Season) (h : List PickRecord),
      simulate_season season = .ok h → (h.map PickRecord.team).Nodup := by
  constructor
  · intro week_df used_teams future_weeks t p hpick
    obtain ⟨r, _, _, _, hc⟩ := pick_team_fresh week_df used_teams future_weeks t p hpick
    exact hc
  · intro season h hsim
    obtain ⟨st, hrun⟩ := simulate_season_ok season h hsim
    exact simLoop_nodup season [] [] h st hrun
      (fun t ht => absurd ht (List.not_mem_nil t)) List.nodup_nil

/-- C5 witness: a two-week season picks A then B, and the resulting history
has pairwise-distinct teams; the picker refuses the already-used team. -/
theorem claim_C5_witness :
    (["A"] : List String).contains "B" = false ∧
    (([⟨1, "A", some 70, true⟩, ⟨2, "B", some 60, true⟩] : List PickRecord).map
      PickRecord.team).Nodup :=
  ⟨claim_C5.1 [⟨"A", some 70, some 1, some [87]⟩, ⟨"B", some 60, some 1, some [87]⟩]
      ["A"] [] "B" (some 60) rfl,
    claim_C5.2 [(1, [⟨"A", some 70, some 1, some [87]⟩]),
        (2, [⟨"B", some 60, some 1, some [87]⟩])]
      [⟨1, "A", some 70, true⟩, ⟨2, "B", some 60, true⟩] rfl⟩

/-- C6: a returned `simulate_season` history is at most as long as the
number of weeks present in the season, and `survived = false` can only
occur on the last record: every record before the last is a survival. -/
theorem claim_C6 (season : Season) (h : List PickRecord)
    (hsim : simulate_season season = .ok h) :
    h.length ≤ season.length ∧ ∀ r ∈ h.dropLast, r.survived = true := by
  obtain ⟨st, hrun⟩ := simulate_season_ok season h hsim
  have hres := simLoop_len_lastFail season [] [] h st hrun
    (fun r hr => absurd hr (List.not_mem_nil r))
  refine ⟨?_, hres.2⟩
  have h1 := hres.1
  simpa using h1

/-- C6 witness: a one-week season with a losing pick yields a one-record
history, within the week bound, with the failure on the (only) last
record. -/
theorem claim_C6_witness :
    ([⟨1, "A", some 70, false⟩] : List PickRecord).length ≤
      ([(1, [⟨"A", some 70, some 1, some [76]⟩])] : Season).length ∧
    ∀ r ∈ ([⟨1, "A", some 70, false⟩] : List PickRecord).dropLast, r.survived = true :=
  claim_C6 [(1, [⟨"A", some 70, some 1, some [76]⟩])] [⟨1, "A", some 70, false⟩] rfl

/-- C7 counterexample: the claim promises exactly `W - 1` records whenever
the simulation stalls at week `W`, but week numbers may have gaps.  In a
season whose weeks are numbered 1 and 3 (team A wins week 1 and is the only
team of week 3), the run stalls at `W = 3` with one record, not `3 - 1 = 2`
records. -/
theorem claim_C7_counterexample :
    simulateSeasonFull [(1, [⟨"A", some 70, some 1, some [87]⟩]),
        (3, [⟨"A", some 95, some 1, some [87]⟩])] =
      .ok ([⟨1, "A", some 70, true⟩], .stalled 3) ∧
    ([⟨1, "A", some 70, true⟩] : List PickRecord).length ≠ 3 - 1 := by
  constructor
  · rfl
  · decide

/-- C7 (amended): on an empty eligible set `pick_team` returns the no-pick
sentinel rather than raising; and when the simulator stalls at week `W`,
the history has exactly as many records as there are season weeks before
`W` — equal to `W - 1` whenever the season's weeks are consecutively
numbered `1, 2, ...` (or fewer records if eliminated earlier, in which case
week `W` is never reached). -/
theorem claim_C7 :
    (∀ (week_df : Slate) (used_teams : List String) (future_weeks : List Slate),
      eligibleRows week_df used_teams = [] →
      pick_team week_df used_teams future_weeks = .ok none) ∧
    ∀ (season : Season) (h : List PickRecord) (W : Nat),
      season.map Prod.fst = List.range' 1 season.length →
      simulateSeasonFull season = .ok (h, .stalled W) →
      h.length = W - 1 := by
  constructor
  · exact pick_team_of_empty
  · intro season h W hweeks hrun
    obtain ⟨pre, wdf, post, heq, hlen⟩ := simLoop_stalled_split season [] [] h W hrun
    have hn : season.length = (post.length + 1) + pre.length := by
      rw [heq]
      simp only [List.length_append, List.length_cons]
      omega
    have hmap2 : List.map Prod.fst pre ++ W :: List.map Prod.fst post =
        List.range' 1 pre.length ++ List.range' (1 + pre.length) (post.length + 1) := by
      rw [List.range'_append_1 1 pre.length (post.length + 1), ← hn, ← hweeks, heq]
      simp
    have htail : W :: List.map Prod.fst post =
        List.range' (1 + pre.length) (post.length + 1) := by
      refine List.append_inj_right hmap2 ?_
      simp
    rw [List.range'_succ] at htail
    have hW : W = 1 + pre.length := (List.cons.injEq _ _ _ _).mp htail |>.1
    rw [hlen, hW]
    simp

/-- C7 witness: weeks 1 and 2, with the only team winning week 1 and being
the sole (already-used) team of week 2: the picker returns the sentinel on
the empty eligible set and the stalled history has `2 - 1 = 1` record. -/
theorem claim_C7_witness :
    pick_team [⟨"A", some 95, some 1, some [87]⟩] ["A"] [] = .ok none ∧
    ([⟨1, "A", some 70, true⟩] : List PickRecord).length = 2 - 1 :=
  ⟨claim_C7.1 [⟨"A", some 95, some 1, some [87]⟩] ["A"] [] (by decide),
    claim_C7.2 [(1, [⟨"A", some 70, some 1, some [87]⟩]),
        (2, [⟨"A", some 95, some 1, some [87]⟩])]
      [⟨1, "A", some 70, true⟩] 2 (by decide) rfl⟩

/-- C8 counterexample: the claimed strict decrease
`base * (1 / (1 + e1 / 100)) > base * (1 / (1 + e2 / 100))` fails at
`base = 0` (with exposures `e1 = 0 < e2 = 1`): both sides are `0`. -/
theorem claim_C8_counterexample :
    (0 : ℚ) < 1 ∧ ¬ ((0 : ℚ) * discount 1 < (0 : ℚ) * discount 0) := by
  constructor
  · norm_num
  · simp

/-- C8 (amended): for a row with positive `base_score`, strictly increasing
the nonnegative summed future win probability strictly decreases the final
score: for `0 < base` and `0 ≤ e1 < e2`,
`base * (1 / (1 + e2 / 100)) < base * (1 / (1 + e1 / 100))`. -/
theorem claim_C8 (base e1 e2 : ℚ) (hb : 0 < base) (he1 : 0 ≤ e1) (h12 : e1 < e2) :
    base * discount e2 < base * discount e1 := by
  unfold discount
  have h1 : (0 : ℚ) < 1 + e1 / 100 := by linarith
  have h2 : 1 + e1 / 100 < 1 + e2 / 100 := by linarith
  exact mul_lt_mul_of_pos_left (one_div_lt_one_div_of_lt h1 h2) hb

/-- C8 witness: with `base = 1` and exposures `0 < 100`, the discounted
score halves: `1 * discount 100 < 1 * discount 0`. -/
theorem claim_C8_witness : (1 : ℚ) * discount 100 < (1 : ℚ) * discount 0 :=
  claim_C8 1 0 100 (by norm_num) (by norm_num) (by norm_num)

/-- C9: a season with zero weeks yields an empty history without error, and
the multi-season runner records the empty history for such a year and
continues processing the remaining years of its range unchanged. -/
theorem claim_C9 :
    simulate_season ([] : Season) = .ok [] ∧
    ∀ (provider : Nat → Season) (a : List Nat) (ra : List (Nat × List PickRecord))
      (y0 : Nat) (b : List Nat),
      provider y0 = [] →
      simulate_all_seasons provider a = .ok ra →
      simulate_all_seasons provider (a ++ y0 :: b) =
        (simulate_all_seasons provider b).map (fun rb => ra ++ (y0, []) :: rb) := by
  constructor
  · rfl
  · intro provider a ra y0 b hp ha
    rw [simulate_all_seasons_append_ok provider a ra (y0 :: b) ha,
      simulate_all_seasons_cons_empty provider y0 b hp]
    cases hb : simulate_all_seasons provider b with
    | error e => rfl
    | ok rb => rfl

/-- C9 witness: year 2011 has no data; the runner records `(2011, [])` and
still processes 2012 after it. -/
theorem claim_C9_witness :
    simulate_all_seasons (fun _ => ([] : Season)) ([2010] ++ 2011 :: [2012]) =
      (simulate_all_seasons (fun _ => ([] : Season)) [2012]).map
        (fun rb => [(2010, [])] ++ (2011, []) :: rb) :=
  claim_C9.2 (fun _ => ([] : Season)) [2010] [(2010, [])] 2011 [2012] rfl rfl

/-- C10: a non-sentinel pick is a row of the current slate whose team is
not in `used_teams`, so the subsequent outcome lookup always finds a
matching row; the out-of-bounds branch of the outcome lookup
(`SimErr.outcomeNotFound`) is unreachable in the season loop. -/
theorem claim_C10 :
    (∀ (week_df : Slate) (used_teams : List String) (future_weeks : List Slate)
      (t : String) (p : Option ℚ),
      pick_team week_df used_teams future_weeks = .ok (some (t, p)) →
      ∃ r ∈ week_df, r.team = t ∧ used_teams.contains t = false ∧
        (week_df.find? (fun x => x.team == t)).isSome = true) ∧
    ∀ (season : Season) (used_teams : List String) (hist : List PickRecord),
      simLoop season used_teams hist ≠ .error .outcomeNotFound := by
  constructor
  · intro week_df used_teams future_weeks t p hpick
    obtain ⟨r, hm, ht, _, hc⟩ := pick_team_fresh week_df used_teams future_weeks t p hpick
    exact ⟨r, hm, ht, hc, find?_isSome_of_pick week_df used_teams future_weeks t p hpick⟩
  · exact simLoop_no_lookup_error

/-- C10 witness: a concrete successful pick is a fresh row of the slate and
its outcome lookup succeeds. -/
theorem claim_C10_witness :
    ∃ r ∈ ([⟨"A", some 70, some 1, some [87]⟩] : Slate), r.team = "A" ∧
      ([] : List String).contains "A" = false ∧
      (([⟨"A", some 70, some 1, some [87]⟩] : Slate).find?
        (fun x => x.team == "A")).isSome = true :=
  claim_C10.1 [⟨"A", some 70, some 1, some [87]⟩] [] [] "A" (some 70) rfl

end Pick1
